import Mathlib

/-!
# Shallow embedding of `pgmod/envconfig` (Go)

This file embeds the library's `setter.go` in Lean 4: the environment
accessors (`Get`, `GetBool`, `GetInt`, `GetInt64`, `GetIntSlice`,
`GetInt64Slice`, `getEnvValue`), the scalar and collection parsers
(`setValue`, `setSliceOrArray`, `parseIntSlice`, `parseInt64Slice`) and the
struct populator (`LoadStruct`).

Modelling conventions:
* The process environment is an explicit association list `Env`; `os.LookupEnv`
  is `lookupEnv` (distinguishes absent from empty), `os.Getenv` is `getenv`
  (absent collapses to `""`).
* Go strings are Lean `String`s; the character-level routines work on
  `List Char` (`String.data`).
* `strconv.ParseInt(s, 10, 64)` is `goParseInt64Core`: optional sign, a
  non-empty run of decimal digits, result within `[-2^63, 2^63-1]`; any
  violation is a `GoErr.numError`.  `strconv.Atoi` has the same accepted
  language on a 64-bit platform (Go `int` is 64-bit there) and differs only
  in the `Func` field of the returned `*strconv.NumError`.  The `Err` reason
  inside Go's `NumError` (syntax vs. range) is not modelled; the error carries
  the function name and the offending input.
* `strings.TrimSpace` trims `unicode.IsSpace` characters; the model covers
  the Latin-1 portion of that set (space, \t, \n, \v, \f, \r, U+0085, U+00A0),
  which is exhaustive for ASCII inputs.
* Reflection: a struct field is a `GoField` (settability, `env` tag, `default`
  tag, current `GoValue`).  `reflect`'s kinds are captured by the `GoValue`
  constructors; slice/array element kinds by `ElemKind`.  The argument of
  `LoadStruct` is a `Cfg`: a pointer to a struct, or one of the rejected
  shapes (nil pointer, pointer to non-struct, non-pointer).
* Errors are structured (`GoErr`) so that wrapping (`fmt.Errorf("env %s: %w")`,
  `"invalid int value at index %d: %w"`) is a constructor application.
-/

/-- Structured model of the error values produced by `setter.go` and the
`strconv` calls it makes. -/
inductive GoErr where
  /-- "cfg must be pointer to struct" -/
  | notStructPtr : GoErr
  /-- "unsupported kind: %s" -/
  | unsupportedKind (kind : String) : GoErr
  /-- "unsupported slice/array element type: %s" -/
  | unsupportedElem (kind : String) : GoErr
  /-- "array length mismatch: got %d values, expected %d" -/
  | lengthMismatch (got expected : Nat) : GoErr
  /-- a `*strconv.NumError` with function name `fn` and input `num`
  (the syntax/range reason is not modelled) -/
  | numError (fn num : String) : GoErr
  /-- "invalid int value at index %d: %w" / "invalid int64 value at index %d: %w" -/
  | invalidIndex (i : Nat) (cause : GoErr) : GoErr
  /-- "env %s: %w" -/
  | envWrap (name : String) (cause : GoErr) : GoErr
deriving DecidableEq, Repr

/-! ## Character and digit utilities -/

/-- Decimal digit test, `'0' ≤ c && c ≤ '9'`. -/
def isDigitChar (c : Char) : Bool := 48 ≤ c.toNat && c.toNat ≤ 57

/-- Numeric value of a decimal digit character. -/
def digitVal (c : Char) : Nat := c.toNat - 48

/-- Left-to-right accumulation of a digit run, as `strconv`'s parse loop does;
`none` on the first non-digit character. -/
def parseDigitsAux : Nat → List Char → Option Nat
  | acc, [] => some acc
  | acc, c :: cs =>
    if isDigitChar c then parseDigitsAux (acc * 10 + digitVal c) cs else none

def int64Min : Int := -(2 ^ 63)
def int64Max : Int := 2 ^ 63 - 1

/-- `strconv.ParseInt(s, 10, 64)`: optional `+`/`-` sign, then a non-empty
digit run, with the signed result required to fit in 64 bits. -/
def goParseInt64Core (s : List Char) : Except GoErr Int :=
  let signed : Bool × List Char :=
    match s with
    | c :: rest =>
      if c = '-' then (true, rest)
      else if c = '+' then (false, rest)
      else (false, c :: rest)
    | [] => (false, [])
  match parseDigitsAux 0 signed.2 with
  | none => .error (.numError "ParseInt" (String.mk s))
  | some n =>
    if signed.2 = [] then .error (.numError "ParseInt" (String.mk s))
    else
      let v : Int := if signed.1 then -(n : Int) else (n : Int)
      if int64Min ≤ v ∧ v ≤ int64Max then .ok v
      else .error (.numError "ParseInt" (String.mk s))

/-- `strconv.Atoi`: same accepted language and values as
`ParseInt(s, 10, 64)` on a 64-bit platform, but the error's function name is
"Atoi". -/
def goAtoiCore (s : List Char) : Except GoErr Int :=
  match goParseInt64Core s with
  | .ok v => .ok v
  | .error _ => .error (.numError "Atoi" (String.mk s))

/-- `strconv.ParseInt(s, 10, 64)` at the `String` level. -/
def goParseInt64 (s : String) : Except GoErr Int := goParseInt64Core s.data

/-- `strconv.ParseBool`: the exact twelve accepted tokens. -/
def goParseBool (s : String) : Option Bool :=
  if s = "1" ∨ s = "t" ∨ s = "T" ∨ s = "true" ∨ s = "TRUE" ∨ s = "True" then
    some true
  else if s = "0" ∨ s = "f" ∨ s = "F" ∨ s = "false" ∨ s = "FALSE" ∨ s = "False" then
    some false
  else none

/-! ## `strings.Split(value, ",")` and `strings.TrimSpace` -/

/-- `strings.Split(s, ",")`: split on every literal comma; always returns at
least one (possibly empty) token. -/
def splitOnComma : List Char → List (List Char)
  | [] => [[]]
  | c :: cs =>
    match splitOnComma cs with
    | [] => [[]]
    | t :: ts => if c = ',' then [] :: t :: ts else (c :: t) :: ts

/-- `unicode.IsSpace`, restricted to Latin-1 (exhaustive for ASCII data). -/
def isGoSpace (c : Char) : Bool :=
  c == ' ' || c == '\t' || c == '\n' || c == '\x0b' || c == '\x0c' ||
    c == '\r' || c == '\x85' || c == '\xa0'

def trimLeft : List Char → List Char
  | [] => []
  | c :: cs => if isGoSpace c then trimLeft cs else c :: cs

/-- `strings.TrimSpace`: drop leading and trailing space characters. -/
def trimSpace (s : List Char) : List Char :=
  (trimLeft (trimLeft s).reverse).reverse

/-! ## The comma-separated integer-list parse loop

`setSliceOrArray`, `parseIntSlice` and `parseInt64Slice` all run the same
loop over the comma-split tokens: trim each token, map an empty trimmed token
to `0`, parse the rest with `strconv` (`ParseInt` resp. `Atoi`), and abort
with an index-tagged error on the first failure. -/

def parseSliceLoop (p : List Char → Except GoErr Int) :
    Nat → List (List Char) → Except GoErr (List Int)
  | _, [] => .ok []
  | i, t :: ts =>
    let tr := trimSpace t
    if tr = [] then
      match parseSliceLoop p (i + 1) ts with
      | .error e => .error e
      | .ok vs => .ok (0 :: vs)
    else
      match p tr with
      | .error e => .error (.invalidIndex i e)
      | .ok v =>
        match parseSliceLoop p (i + 1) ts with
        | .error e => .error e
        | .ok vs => .ok (v :: vs)

/-- `parseIntSlice`: comma-split, trim, empty token ↦ 0, `strconv.Atoi` each
remaining token. -/
def parseIntSlice (s : String) : Except GoErr (List Int) :=
  parseSliceLoop goAtoiCore 0 (splitOnComma s.data)

/-- `parseInt64Slice`: comma-split, trim, empty token ↦ 0,
`strconv.ParseInt(·, 10, 64)` each remaining token. -/
def parseInt64Slice (s : String) : Except GoErr (List Int) :=
  parseSliceLoop goParseInt64Core 0 (splitOnComma s.data)

/-! ## The environment and the standalone accessors -/

/-- The process environment: an association list from variable names to
values.  Absence of a key is distinct from the empty value. -/
abbrev Env := List (String × String)

/-- `os.LookupEnv`. -/
def lookupEnv (env : Env) (name : String) : Option String := env.lookup name

/-- `os.Getenv`: empty string when the variable is absent. -/
def getenv (env : Env) (name : String) : String := (lookupEnv env name).getD ""

/-- `getEnvValue`: the environment's value when the key EXISTS (even if
empty), else the default. -/
def getEnvValue (env : Env) (envName defaultValue : String) : String :=
  match lookupEnv env envName with
  | some value => value
  | none => defaultValue

/-- `Get`: the environment's value when it is non-empty, else the default. -/
def Get (env : Env) (key defaultValue : String) : String :=
  let value := getenv env key
  if value ≠ "" then value else defaultValue

/-- `GetBool`: `Get(key, "")`, empty → default, `strconv.ParseBool`,
parse failure → default. -/
def GetBool (env : Env) (key : String) (defaultValue : Bool) : Bool :=
  let value := Get env key ""
  if value = "" then defaultValue
  else
    match goParseBool value with
    | some parsed => parsed
    | none => defaultValue

/-- `GetInt`: `os.Getenv`, empty → default, `strconv.Atoi`, failure → default. -/
def GetInt (env : Env) (key : String) (defaultValue : Int) : Int :=
  let value := getenv env key
  if value = "" then defaultValue
  else
    match goAtoiCore value.data with
    | .ok parsed => parsed
    | .error _ => defaultValue

/-- `GetInt64`: `os.Getenv`, empty → default, `strconv.ParseInt`,
failure → default. -/
def GetInt64 (env : Env) (key : String) (defaultValue : Int) : Int :=
  let value := getenv env key
  if value = "" then defaultValue
  else
    match goParseInt64 value with
    | .ok parsed => parsed
    | .error _ => defaultValue

/-- `GetIntSlice`: `os.Getenv`, empty → default, `parseIntSlice`,
failure → default. -/
def GetIntSlice (env : Env) (key : String) (defaultValue : List Int) : List Int :=
  let value := getenv env key
  if value = "" then defaultValue
  else
    match parseIntSlice value with
    | .ok slice => slice
    | .error _ => defaultValue

/-- `GetInt64Slice`: `os.Getenv`, empty → default, `parseInt64Slice`,
failure → default. -/
def GetInt64Slice (env : Env) (key : String) (defaultValue : List Int) : List Int :=
  let value := getenv env key
  if value = "" then defaultValue
  else
    match parseInt64Slice value with
    | .ok slice => slice
    | .error _ => defaultValue

/-! ## Reflected struct model and `setValue` / `setSliceOrArray` / `LoadStruct` -/

/-- The element kind of a slice/array field (`field.Type().Elem().Kind()`).
`eother k` is any kind other than `int`/`int64`, with `k` its name. -/
inductive ElemKind where
  | eint : ElemKind
  | eint64 : ElemKind
  | eother (kind : String) : ElemKind
deriving DecidableEq, Repr

/-- The value held by a struct field, tagged by its reflected kind.
`int` covers Go kinds `int` and `int64` (identical in `setValue`);
`unsupported k` is any other kind, with `k` its name. -/
inductive GoValue where
  | str (s : String) : GoValue
  | boolean (b : Bool) : GoValue
  | int (i : Int) : GoValue
  | slice (ek : ElemKind) (xs : List Int) : GoValue
  | array (ek : ElemKind) (xs : List Int) : GoValue
  | unsupported (kind : String) : GoValue
deriving DecidableEq, Repr

/-- `setSliceOrArray(field, value)` for a slice (`isSlice = true`) or array
(`isSlice = false`, of length `arrayLen`) field with element kind `ek`;
returns the list of integers written into the field. -/
def setSliceOrArray (isSlice : Bool) (ek : ElemKind) (arrayLen : Nat)
    (value : String) : Except GoErr (List Int) :=
  match ek with
  | .eother k => .error (.unsupportedElem k)
  | _ =>
    if value = "" then
      if isSlice then .ok [] else .ok (List.replicate arrayLen 0)
    else
      let parts := splitOnComma value.data
      if isSlice = false ∧ parts.length ≠ arrayLen then
        .error (.lengthMismatch parts.length arrayLen)
      else
        parseSliceLoop goParseInt64Core 0 parts

/-- `setValue(field, value)`: no-op on a non-settable field, else dispatch on
the field's kind.  Returns the field's new value (the old one on the
non-settable path). -/
def setValue (canSet : Bool) (cur : GoValue) (value : String) :
    Except GoErr GoValue :=
  if canSet = false then .ok cur
  else
    match cur with
    | .str _ => .ok (.str value)
    | .boolean _ =>
      if value = "" then .ok (.boolean false)
      else
        match goParseBool value with
        | some v => .ok (.boolean v)
        | none => .error (.numError "ParseBool" value)
    | .int _ =>
      if value = "" then .ok (.int 0)
      else
        match goParseInt64 value with
        | .ok v => .ok (.int v)
        | .error e => .error e
    | .slice ek xs =>
      match setSliceOrArray true ek xs.length value with
      | .ok vs => .ok (.slice ek vs)
      | .error e => .error e
    | .array ek xs =>
      match setSliceOrArray false ek xs.length value with
      | .ok vs => .ok (.array ek vs)
      | .error e => .error e
    | .unsupported k => .error (.unsupportedKind k)

/-- One struct field (Go `reflect.StructField` plus its value) as `LoadStruct` sees it: settability (`CanSet`), the
`env` and `default` tags, and the current value. -/
structure GoField where
  canSet : Bool
  envTag : String
  defaultTag : String
  val : GoValue
deriving DecidableEq, Repr

/-- The argument passed to `LoadStruct`, after `reflect.ValueOf`: a non-nil
pointer to a struct, or one of the rejected shapes. -/
inductive Cfg where
  | ptrStruct (fields : List GoField) : Cfg
  | ptrNil : Cfg
  | ptrNonStruct : Cfg
  | nonPtr : Cfg
deriving DecidableEq, Repr

/-- The field loop of `LoadStruct`: walk the fields in order, skip fields
with an empty `env` tag, resolve via `getEnvValue`, write via `setValue`.
Returns the final state of every field (mutation is in place, so on an error
the already-processed prefix keeps its new values and the rest keeps its old
ones) together with the error, if any. -/
def loadLoop (env : Env) : List GoField → List GoField × Option GoErr
  | [] => ([], none)
  | f :: rest =>
    if f.envTag = "" then
      let r := loadLoop env rest
      (f :: r.1, r.2)
    else
      let envValue := getEnvValue env f.envTag f.defaultTag
      match setValue f.canSet f.val envValue with
      | .error e => (f :: rest, some (.envWrap f.envTag e))
      | .ok v =>
        let r := loadLoop env rest
        ({ f with val := v } :: r.1, r.2)

/-- `LoadStruct(cfg)`: reject anything that is not a non-nil pointer to a
struct, else run the field loop.  Returns the final state of the argument
and the error, if any. -/
def LoadStruct (env : Env) (cfg : Cfg) : Cfg × Option GoErr :=
  match cfg with
  | .ptrStruct fields =>
    let r := loadLoop env fields
    (.ptrStruct r.1, r.2)
  | c => (c, some .notStructPtr)

/-! ## Decimal rendering and comma-join (the inverse direction of C8's
round-trip; these mirror Go's `strconv.FormatInt`/`strings.Join`) -/

/-- The character for a decimal digit `d < 10`. -/
def digitChar (d : Nat) : Char := Char.ofNat (48 + d)

/-- Most-significant-first decimal digits of a natural number. -/
def natToDigits (n : Nat) : List Char :=
  if _h : n < 10 then [digitChar n]
  else natToDigits (n / 10) ++ [digitChar (n % 10)]
decreasing_by exact Nat.div_lt_self (by omega) (by omega)

/-- Decimal rendering of an integer, as a character list. -/
def renderIntChars (i : Int) : List Char :=
  if i < 0 then '-' :: natToDigits i.natAbs else natToDigits i.toNat

/-- Decimal rendering of an integer (`strconv.FormatInt(i, 10)`). -/
def renderInt (i : Int) : String := String.mk (renderIntChars i)

/-- `strings.Join(l, ",")` on character lists. -/
def joinComma : List (List Char) → List Char
  | [] => []
  | [t] => t
  | t :: ts => t ++ ',' :: joinComma ts

/-- `strings.Join(l, ",")`. -/
def joinCommaStr (l : List String) : String :=
  String.mk (joinComma (l.map String.data))

/-! ## Shared helper lemmas -/

/-- `Get(key, "")` is exactly `os.Getenv(key)`. -/
theorem Get_empty_fallback (env : Env) (key : String) :
    Get env key "" = getenv env key := by
  by_cases h : getenv env key = "" <;> simp [Get, h]

/-! ## C1 -/

/-- C1: the claim states that the effective raw string is the environment's
value only when the key exists AND is non-empty, uniformly for `getEnvValue`
and `Get`.  Counterexample: with the variable set to the empty string,
`getEnvValue` hands the parser the empty string while `Get` falls back to
the default, so the claimed uniform rule fails on the struct path. -/
theorem getEnvValue_empty_value_counterexample :
    getEnvValue [("X", "")] "X" "d" = "" ∧
    Get [("X", "")] "X" "d" = "d" ∧
    getEnvValue [("X", "")] "X" "d" ≠ "d" := by
  refine ⟨rfl, rfl, ?_⟩
  decide

/-- C1 (amended): `getEnvValue` (struct path) returns the environment's value
whenever the key exists — even when that value is empty — and the default
annotation only when the key is absent; the standalone `Get` additionally
treats a set-but-empty value as absent.  The two resolutions agree whenever
the key is absent or its value is non-empty. -/
theorem getEnvValue_Get_resolution (env : Env) (name fallback : String) :
    (∀ v, lookupEnv env name = some v → getEnvValue env name fallback = v) ∧
    (lookupEnv env name = none → getEnvValue env name fallback = fallback) ∧
    (getenv env name ≠ "" →
      Get env name fallback = getenv env name ∧
      getEnvValue env name fallback = getenv env name) ∧
    (getenv env name = "" → Get env name fallback = fallback) := by
  refine ⟨?_, ?_, ?_, ?_⟩
  · intro v hv
    simp [getEnvValue, hv]
  · intro hv
    simp [getEnvValue, hv]
  · intro hne
    constructor
    · simp [Get, hne]
    · rcases hl : lookupEnv env name with _ | v
      · exact absurd (by simp [getenv, hl]) hne
      · simp [getEnvValue, getenv, hl]
  · intro he
    simp [Get, he]

/-- C1 amended-claim witness at concrete inputs. -/
theorem getEnvValue_Get_resolution_witness :
    getEnvValue [("X", "v")] "X" "d" = "v" ∧
    Get [("X", "v")] "X" "d" = getenv [("X", "v")] "X" ∧
    Get [] "X" "d" = "d" := by
  refine ⟨?_, ?_, ?_⟩
  · exact (getEnvValue_Get_resolution [("X", "v")] "X" "d").1 "v" rfl
  · exact ((getEnvValue_Get_resolution [("X", "v")] "X" "d").2.2.1 (by decide)).1
  · exact (getEnvValue_Get_resolution [] "X" "d").2.2.2 rfl

/-! ## C9 -/

/-- C9: for every argument that is not a non-nil pointer to a struct,
`LoadStruct` returns the "cfg must be pointer to struct" error at once,
leaving the argument (and hence every field of every target) untouched. -/
theorem LoadStruct_rejects_non_struct_pointer (env : Env) (cfg : Cfg)
    (h : ∀ fields, cfg ≠ Cfg.ptrStruct fields) :
    LoadStruct env cfg = (cfg, some .notStructPtr) := by
  cases cfg with
  | ptrStruct fields => exact absurd rfl (h fields)
  | ptrNil => rfl
  | ptrNonStruct => rfl
  | nonPtr => rfl

/-- C9 witness: a non-pointer argument. -/
theorem LoadStruct_rejects_non_struct_pointer_witness :
    LoadStruct [] Cfg.nonPtr = (Cfg.nonPtr, some .notStructPtr) :=
  LoadStruct_rejects_non_struct_pointer [] Cfg.nonPtr
    (fun _ h => Cfg.noConfusion h)

/-! ## C10 -/

/-- C10: a non-settable field is silently skipped: `setValue` returns the old
value with no error whatever the raw string, so `LoadStruct`'s loop leaves
such a field unchanged and continues with the remaining fields, reporting no
error for it. -/
theorem setValue_not_settable_skips (f : GoField) :
    (∀ (cur : GoValue) (value : String), setValue false cur value = .ok cur) ∧
    (f.canSet = false → ∀ (env : Env) (rest : List GoField),
      loadLoop env (f :: rest) =
        (f :: (loadLoop env rest).1, (loadLoop env rest).2)) := by
  constructor
  · intro cur value
    simp [setValue]
  · intro hset env rest
    obtain ⟨cs, et, dt, v⟩ := f
    cases hset
    simp [loadLoop, setValue]

/-- C10 witness: an unexported (non-settable) annotated field with a malformed
raw value is left alone and produces no error. -/
theorem setValue_not_settable_skips_witness :
    setValue false (.int 7) "not_a_number" = .ok (.int 7) ∧
    loadLoop [("A", "not_a_number")] [⟨false, "A", "", .int 7⟩] =
      ([⟨false, "A", "", .int 7⟩], none) := by
  constructor
  · exact (setValue_not_settable_skips ⟨false, "A", "", .int 7⟩).1 (.int 7)
      "not_a_number"
  · have h := (setValue_not_settable_skips ⟨false, "A", "", .int 7⟩).2 rfl
      [("A", "not_a_number")] []
    simpa [loadLoop] using h

/-! ## C6 -/

/-- C6: on an empty effective raw string a supported collection field parses
without error: a slice becomes the empty collection and an array of length
`n` becomes `n` zero elements; `setValue` writes these into the field. -/
theorem setSliceOrArray_empty_value (ek : ElemKind)
    (hek : ek = .eint ∨ ek = .eint64) (n : Nat) (xs : List Int) :
    setSliceOrArray true ek n "" = .ok [] ∧
    setSliceOrArray false ek n "" = .ok (List.replicate n 0) ∧
    setValue true (.slice ek xs) "" = .ok (.slice ek []) ∧
    setValue true (.array ek xs) "" = .ok (.array ek (List.replicate xs.length 0)) := by
  rcases hek with rfl | rfl <;>
    exact ⟨rfl, rfl, rfl, rfl⟩

/-- C6 witness at a concrete slice and 3-element array. -/
theorem setSliceOrArray_empty_value_witness :
    setSliceOrArray true .eint 0 "" = .ok [] ∧
    setSliceOrArray false .eint64 3 "" = .ok [0, 0, 0] := by
  refine ⟨(setSliceOrArray_empty_value .eint (Or.inl rfl) 0 []).1, ?_⟩
  have h := (setSliceOrArray_empty_value .eint64 (Or.inr rfl) 3 []).2.1
  simpa using h

/-! ## C5 -/

/-- C5: for a fixed-size (array) target and a non-empty raw string the parse
succeeds only when the comma-split token count equals the array length; a
mismatch is the fatal length-mismatch error carrying both counts, and a
matching count such as "1,2,3" against a 3-element target succeeds. -/
theorem setSliceOrArray_array_length (ek : ElemKind)
    (hek : ek = .eint ∨ ek = .eint64) :
    (∀ (n : Nat) (value : String), value ≠ "" →
      (splitOnComma value.data).length ≠ n →
      setSliceOrArray false ek n value =
        .error (.lengthMismatch (splitOnComma value.data).length n)) ∧
    (∀ (n : Nat) (value : String) (r : List Int), value ≠ "" →
      setSliceOrArray false ek n value = .ok r →
      (splitOnComma value.data).length = n) ∧
    setSliceOrArray false ek 3 "1,2" = .error (.lengthMismatch 2 3) ∧
    setSliceOrArray false ek 3 "1,2,3" = .ok [1, 2, 3] := by
  refine ⟨?_, ?_, ?_, ?_⟩
  · intro n value hv hlen
    rcases hek with rfl | rfl <;> simp [setSliceOrArray, hv, hlen]
  · intro n value r hv hok
    by_contra hlen
    rcases hek with rfl | rfl <;>
      simp [setSliceOrArray, hv, hlen] at hok
  · rcases hek with rfl | rfl <;> rfl
  · rcases hek with rfl | rfl <;> rfl

/-- C5 witness: the hypothesised general statements at "1,2" versus a
3-element target. -/
theorem setSliceOrArray_array_length_witness :
    setSliceOrArray false .eint 3 "1,2" =
      .error (.lengthMismatch (splitOnComma "1,2".data).length 3) ∧
    (splitOnComma "1,2,3".data).length = 3 := by
  constructor
  · exact (setSliceOrArray_array_length .eint (Or.inl rfl)).1 3 "1,2"
      (by decide) (by decide)
  · exact (setSliceOrArray_array_length .eint (Or.inl rfl)).2.1 3 "1,2,3"
      [1, 2, 3] (by decide)
      ((setSliceOrArray_array_length .eint (Or.inl rfl)).2.2.2)

/-! ## C3 -/

/-- C3: the standalone accessors are total: whenever the key is unset or set
to the empty string (both collapse to `getenv … = ""`), and whenever the
value fails its accessor's parser, the call returns exactly the caller's
default. -/
theorem standalone_accessors_never_fail (env : Env) (key : String) :
    (getenv env key = "" →
      (∀ d, Get env key d = d) ∧ (∀ d, GetBool env key d = d) ∧
      (∀ d, GetInt env key d = d) ∧ (∀ d, GetInt64 env key d = d) ∧
      (∀ d, GetIntSlice env key d = d) ∧ (∀ d, GetInt64Slice env key d = d)) ∧
    (goParseBool (getenv env key) = none → ∀ d, GetBool env key d = d) ∧
    (∀ e, goAtoiCore (getenv env key).data = .error e →
      ∀ d, GetInt env key d = d) ∧
    (∀ e, goParseInt64 (getenv env key) = .error e →
      ∀ d, GetInt64 env key d = d) ∧
    (∀ e, parseIntSlice (getenv env key) = .error e →
      ∀ d, GetIntSlice env key d = d) ∧
    (∀ e, parseInt64Slice (getenv env key) = .error e →
      ∀ d, GetInt64Slice env key d = d) := by
  refine ⟨?_, ?_, ?_, ?_, ?_, ?_⟩
  · intro he
    refine ⟨?_, ?_, ?_, ?_, ?_, ?_⟩ <;> intro d <;>
      simp [Get, GetBool, GetInt, GetInt64, GetIntSlice, GetInt64Slice,
        Get_empty_fallback, he]
  · intro hp d
    by_cases he : getenv env key = "" <;>
      simp [GetBool, Get_empty_fallback, he, hp]
  · intro e hp d
    by_cases he : getenv env key = "" <;> simp [GetInt, he, hp]
  · intro e hp d
    by_cases he : getenv env key = "" <;> simp [GetInt64, he, hp]
  · intro e hp d
    by_cases he : getenv env key = "" <;> simp [GetIntSlice, he, hp]
  · intro e hp d
    by_cases he : getenv env key = "" <;> simp [GetInt64Slice, he, hp]

/-- C3 witness: unset key, empty value and unparsable values all yield the
caller's default at concrete inputs. -/
theorem standalone_accessors_never_fail_witness :
    Get [] "K" "d" = "d" ∧
    GetBool [("K", "maybe")] "K" true = true ∧
    GetInt [("K", "not_a_number")] "K" 5 = 5 ∧
    GetInt64 [("K", "9o9")] "K" 7 = 7 ∧
    GetIntSlice [("K", "1,x")] "K" [3, 4] = [3, 4] ∧
    GetInt64Slice [("K", "")] "K" [9] = [9] := by
  refine ⟨?_, ?_, ?_, ?_, ?_, ?_⟩
  · exact ((standalone_accessors_never_fail [] "K").1 rfl).1 "d"
  · exact (standalone_accessors_never_fail [("K", "maybe")] "K").2.1 rfl true
  · exact (standalone_accessors_never_fail [("K", "not_a_number")] "K").2.2.1
      (.numError "Atoi" "not_a_number") rfl 5
  · exact (standalone_accessors_never_fail [("K", "9o9")] "K").2.2.2.1
      (.numError "ParseInt" "9o9") rfl 7
  · exact (standalone_accessors_never_fail [("K", "1,x")] "K").2.2.2.2.1
      (.invalidIndex 1 (.numError "Atoi" "x")) rfl [3, 4]
  · exact ((standalone_accessors_never_fail [("K", "")] "K").1 rfl).2.2.2.2.2 [9]

/-! ## C4 -/

/-- C4: `strconv.ParseBool` accepts exactly the documented twelve tokens
(`1/t/T/true/TRUE/True` as true, `0/f/F/false/FALSE/False` as false); on the
struct path an empty raw string sets the field to `false` unconditionally
and any other unaccepted token is a parse failure, while `GetBool` maps an
empty or unparsable value to the caller's default. -/
theorem parseBool_token_set :
    (∀ s : String, goParseBool s = some true ↔
      s ∈ (["1", "t", "T", "true", "TRUE", "True"] : List String)) ∧
    (∀ s : String, goParseBool s = some false ↔
      s ∈ (["0", "f", "F", "false", "FALSE", "False"] : List String)) ∧
    (∀ s : String, goParseBool s = none ↔
      s ∉ (["1", "t", "T", "true", "TRUE", "True",
            "0", "f", "F", "false", "FALSE", "False"] : List String)) ∧
    (∀ cur : Bool, setValue true (.boolean cur) "" = .ok (.boolean false)) ∧
    (∀ (s : String) (cur : Bool), goParseBool s = none → s ≠ "" →
      setValue true (.boolean cur) s = .error (.numError "ParseBool" s)) ∧
    (∀ (env : Env) (key : String) (d : Bool),
      getenv env key = "" ∨ goParseBool (getenv env key) = none →
      GetBool env key d = d) := by
  refine ⟨?_, ?_, ?_, ?_, ?_, ?_⟩
  · intro s
    by_cases h1 : s = "1" ∨ s = "t" ∨ s = "T" ∨ s = "true" ∨ s = "TRUE" ∨
        s = "True"
    · rcases h1 with rfl | rfl | rfl | rfl | rfl | rfl <;> decide
    · by_cases h2 : s = "0" ∨ s = "f" ∨ s = "F" ∨ s = "false" ∨ s = "FALSE" ∨
          s = "False"
      · rcases h2 with rfl | rfl | rfl | rfl | rfl | rfl <;> decide
      · simp only [goParseBool, if_neg h1, if_neg h2, List.mem_cons,
          List.not_mem_nil, or_false]
        simp only [reduceCtorEq, false_iff]
        exact h1
  · intro s
    by_cases h1 : s = "1" ∨ s = "t" ∨ s = "T" ∨ s = "true" ∨ s = "TRUE" ∨
        s = "True"
    · rcases h1 with rfl | rfl | rfl | rfl | rfl | rfl <;> decide
    · by_cases h2 : s = "0" ∨ s = "f" ∨ s = "F" ∨ s = "false" ∨ s = "FALSE" ∨
          s = "False"
      · rcases h2 with rfl | rfl | rfl | rfl | rfl | rfl <;> decide
      · simp only [goParseBool, if_neg h1, if_neg h2, List.mem_cons,
          List.not_mem_nil, or_false]
        simp only [reduceCtorEq, false_iff]
        exact h2
  · intro s
    by_cases h1 : s = "1" ∨ s = "t" ∨ s = "T" ∨ s = "true" ∨ s = "TRUE" ∨
        s = "True"
    · rcases h1 with rfl | rfl | rfl | rfl | rfl | rfl <;> decide
    · by_cases h2 : s = "0" ∨ s = "f" ∨ s = "F" ∨ s = "false" ∨ s = "FALSE" ∨
          s = "False"
      · rcases h2 with rfl | rfl | rfl | rfl | rfl | rfl <;> decide
      · simp only [goParseBool, if_neg h1, if_neg h2, List.mem_cons,
          List.not_mem_nil, or_false, true_iff]
        tauto
  · intro cur
    simp [setValue]
  · intro s cur hp hs
    simp [setValue, hs, hp]
  · intro env key d h
    rcases h with he | hp
    · simp [GetBool, Get_empty_fallback, he]
    · by_cases he : getenv env key = "" <;>
        simp [GetBool, Get_empty_fallback, he, hp]

/-- C4 witness: the token set, the unconditional struct-path empty-to-false
rule and both `GetBool` fallbacks at concrete inputs. -/
theorem parseBool_token_set_witness :
    goParseBool "TRUE" = some true ∧
    goParseBool "0" = some false ∧
    goParseBool "yes" = none ∧
    setValue true (.boolean true) "" = .ok (.boolean false) ∧
    setValue true (.boolean false) "yes" =
      .error (.numError "ParseBool" "yes") ∧
    GetBool [("K", "yes")] "K" true = true := by
  refine ⟨?_, ?_, ?_, ?_, ?_, ?_⟩
  · exact (parseBool_token_set.1 "TRUE").mpr (by decide)
  · exact (parseBool_token_set.2.1 "0").mpr (by decide)
  · exact (parseBool_token_set.2.2.1 "yes").mpr (by decide)
  · exact parseBool_token_set.2.2.2.1 true
  · exact parseBool_token_set.2.2.2.2.1 "yes" false rfl (by decide)
  · exact parseBool_token_set.2.2.2.2.2 [("K", "yes")] "K" true (Or.inr rfl)

/-! ## C2 -/

/-- C2: if some annotated field's resolved raw string fails to parse, the
field loop stops there: the error wraps the parse error under the field's
variable name, the successfully processed prefix keeps its newly written
values (`pre2`, no rollback), and the failing field and everything after it
keep their prior values. -/
theorem LoadStruct_stops_at_first_parse_error (env : Env) (pre : List GoField)
    (f : GoField) (post : List GoField) (pre2 : List GoField) (e : GoErr)
    (hpre : loadLoop env pre = (pre2, none))
    (htag : f.envTag ≠ "")
    (hfail : setValue f.canSet f.val (getEnvValue env f.envTag f.defaultTag) =
      .error e) :
    loadLoop env (pre ++ f :: post) =
      (pre2 ++ f :: post, some (.envWrap f.envTag e)) ∧
    LoadStruct env (.ptrStruct (pre ++ f :: post)) =
      (.ptrStruct (pre2 ++ f :: post), some (.envWrap f.envTag e)) := by
  suffices hloop : loadLoop env (pre ++ f :: post) =
      (pre2 ++ f :: post, some (.envWrap f.envTag e)) by
    exact ⟨hloop, by simp [LoadStruct, hloop]⟩
  induction pre generalizing pre2 with
  | nil =>
    have h0 : pre2 = [] := by
      simpa [loadLoop] using congrArg Prod.fst hpre.symm
    subst h0
    simp [loadLoop, htag, hfail]
  | cons x xs ih =>
    by_cases hx : x.envTag = ""
    · rcases hr : loadLoop env xs with ⟨ys, oe⟩
      simp only [loadLoop, if_pos hx, hr, Prod.mk.injEq] at hpre
      obtain ⟨h1, h2⟩ := hpre
      subst h2
      subst h1
      simp only [List.cons_append, loadLoop, if_pos hx, List.append_eq,
        ih ys hr]
    · rcases hsv : setValue x.canSet x.val (getEnvValue env x.envTag
          x.defaultTag) with e2 | v
      · simp only [loadLoop, if_neg hx, hsv, Prod.mk.injEq] at hpre
        exact absurd hpre.2 (by simp)
      · rcases hr : loadLoop env xs with ⟨ys, oe⟩
        simp only [loadLoop, if_neg hx, hsv, hr, Prod.mk.injEq] at hpre
        obtain ⟨h1, h2⟩ := hpre
        subst h2
        subst h1
        simp only [List.cons_append, loadLoop, if_neg hx, hsv, List.append_eq,
          ih ys hr]

/-- C2 witness: a string field loads, the next field fails on a malformed
boolean, the field after it is untouched. -/
theorem LoadStruct_stops_at_first_parse_error_witness :
    LoadStruct [("A", "hello"), ("B", "nope")]
      (.ptrStruct [⟨true, "A", "", .str ""⟩, ⟨true, "B", "", .boolean false⟩,
        ⟨true, "C", "9", .int 0⟩]) =
      (.ptrStruct [⟨true, "A", "", .str "hello"⟩,
        ⟨true, "B", "", .boolean false⟩, ⟨true, "C", "9", .int 0⟩],
       some (.envWrap "B" (.numError "ParseBool" "nope"))) := by
  have h := (LoadStruct_stops_at_first_parse_error
    [("A", "hello"), ("B", "nope")]
    [⟨true, "A", "", .str ""⟩] ⟨true, "B", "", .boolean false⟩
    [⟨true, "C", "9", .int 0⟩] [⟨true, "A", "", .str "hello"⟩]
    (.numError "ParseBool" "nope") rfl (by decide) rfl).2
  simpa using h

/-! ## C7 -/

/-- In the shared token loop, a first failing token after a good prefix is
reported at its 0-based position (`i` plus the prefix length). -/
theorem parseSliceLoop_first_error (p : List Char → Except GoErr Int)
    (t : List Char) (e : GoErr) :
    ∀ (pre post : List (List Char)) (i : Nat),
      (∀ u ∈ pre, trimSpace u = [] ∨ ∃ v, p (trimSpace u) = .ok v) →
      trimSpace t ≠ [] → p (trimSpace t) = .error e →
      parseSliceLoop p i (pre ++ t :: post) =
        .error (.invalidIndex (i + pre.length) e) := by
  intro pre
  induction pre with
  | nil =>
    intro post i _ htrim hp
    simp only [List.nil_append, List.length_nil, Nat.add_zero]
    rw [parseSliceLoop, if_neg htrim, hp]
  | cons u us ih =>
    intro post i hgood htrim hp
    have harith : i + 1 + us.length = i + (us.length + 1) := by omega
    have hrec := ih post (i + 1) (fun w hw => hgood w (List.mem_cons_of_mem u hw))
      htrim hp
    by_cases hu : trimSpace u = []
    · rw [List.cons_append, parseSliceLoop, if_pos hu, hrec]
      simp [harith]
    · rcases hgood u (List.mem_cons_self u us) with h | ⟨v, hv⟩
      · exact absurd h hu
      · rw [List.cons_append, parseSliceLoop, if_neg hu, hv, hrec]
        simp [harith]

/-- C7: a non-empty raw string is split on literal commas, each token is
trimmed of surrounding whitespace, an empty trimmed token parses to `0`
("1,,3" gives [1,0,3], " 1 , 2 , 3 " gives [1,2,3]), and the first
unparsable token aborts the parse with an error naming its 0-based index. -/
theorem collection_parser_tokens :
    parseIntSlice "1,,3" = .ok [1, 0, 3] ∧
    parseIntSlice " 1 , 2 , 3 " = .ok [1, 2, 3] ∧
    parseInt64Slice "1,,3" = .ok [1, 0, 3] ∧
    parseInt64Slice " 1 , 2 , 3 " = .ok [1, 2, 3] ∧
    (∀ s : String, parseIntSlice s =
      parseSliceLoop goAtoiCore 0 (splitOnComma s.data)) ∧
    (∀ (p : List Char → Except GoErr Int) (i : Nat) (t : List Char)
        (ts : List (List Char)),
      parseSliceLoop p i (t :: ts) =
        if trimSpace t = [] then
          match parseSliceLoop p (i + 1) ts with
          | .error e2 => .error e2
          | .ok vs => .ok (0 :: vs)
        else
          match p (trimSpace t) with
          | .error e2 => .error (.invalidIndex i e2)
          | .ok v =>
            match parseSliceLoop p (i + 1) ts with
            | .error e2 => .error e2
            | .ok vs => .ok (v :: vs)) ∧
    (∀ (p : List Char → Except GoErr Int) (pre post : List (List Char))
        (t : List Char) (e : GoErr),
      (∀ u ∈ pre, trimSpace u = [] ∨ ∃ v, p (trimSpace u) = .ok v) →
      trimSpace t ≠ [] → p (trimSpace t) = .error e →
      parseSliceLoop p 0 (pre ++ t :: post) =
        .error (.invalidIndex pre.length e)) := by
  refine ⟨rfl, rfl, rfl, rfl, fun s => rfl, fun p i t ts => rfl, ?_⟩
  intro p pre post t e hgood htrim hp
  have h := parseSliceLoop_first_error p t e pre post 0 hgood htrim hp
  simpa using h

/-- C7 witness: the failing token "x" of "1,x" is reported at index 1. -/
theorem collection_parser_tokens_witness :
    parseSliceLoop goAtoiCore 0 [[Char.ofNat 49], [Char.ofNat 120]] =
      .error (.invalidIndex 1 (.numError "Atoi" "x")) := by
  have h := collection_parser_tokens.2.2.2.2.2.2 goAtoiCore
    [[Char.ofNat 49]] [] [Char.ofNat 120] (.numError "Atoi" "x")
    (by intro u hu
        simp only [List.mem_singleton] at hu
        subst hu
        exact Or.inr ⟨1, rfl⟩)
    (by decide) rfl
  simpa using h

/-! ## C8 machinery: decimal round trip -/

theorem digitChar_toNat (d : Nat) (h : d < 10) : (digitChar d).toNat = 48 + d := by
  interval_cases d <;> rfl

theorem isDigitChar_digitChar (d : Nat) (h : d < 10) :
    isDigitChar (digitChar d) = true := by
  simp only [isDigitChar, digitChar_toNat d h, Bool.and_eq_true, decide_eq_true_eq]
  omega

theorem digitVal_digitChar (d : Nat) (h : d < 10) : digitVal (digitChar d) = d := by
  simp [digitVal, digitChar_toNat d h]

theorem natToDigits_ne_nil (n : Nat) : natToDigits n ≠ [] := by
  rw [natToDigits]
  split <;> simp

theorem natToDigits_all_digits (n : Nat) :
    ∀ c ∈ natToDigits n, 48 ≤ c.toNat ∧ c.toNat ≤ 57 := by
  induction n using Nat.strong_induction_on with
  | _ n ih =>
    rw [natToDigits]
    split
    case isTrue h =>
      intro c hc
      simp only [List.mem_singleton] at hc
      subst hc
      rw [digitChar_toNat n h]
      omega
    case isFalse h =>
      intro c hc
      rcases List.mem_append.1 hc with h1 | h2
      · exact ih (n / 10) (Nat.div_lt_self (by omega) (by omega)) c h1
      · simp only [List.mem_singleton] at h2
        subst h2
        rw [digitChar_toNat _ (Nat.mod_lt _ (by omega))]
        omega

theorem parseDigitsAux_append (acc : Nat) (xs ys : List Char) :
    parseDigitsAux acc (xs ++ ys) =
      match parseDigitsAux acc xs with
      | none => none
      | some a => parseDigitsAux a ys := by
  induction xs generalizing acc with
  | nil => rfl
  | cons c cs ih =>
    simp only [List.cons_append, parseDigitsAux]
    by_cases h : isDigitChar c
    · simp [h, ih]
    · simp [h]

theorem parseDigitsAux_natToDigits (n : Nat) : ∀ acc : Nat,
    parseDigitsAux acc (natToDigits n) =
      some (acc * 10 ^ (natToDigits n).length + n) := by
  induction n using Nat.strong_induction_on with
  | _ n ih =>
    intro acc
    rw [natToDigits]
    split
    case isTrue h =>
      simp [parseDigitsAux, isDigitChar_digitChar n h, digitVal_digitChar n h]
    case isFalse h =>
      have hdiv : n / 10 < n := Nat.div_lt_self (by omega) (by omega)
      rw [parseDigitsAux_append, ih (n / 10) hdiv acc]
      have hm : n % 10 < 10 := Nat.mod_lt _ (by omega)
      simp only [parseDigitsAux, isDigitChar_digitChar _ hm, if_pos,
        digitVal_digitChar _ hm, List.length_append, List.length_cons,
        List.length_nil, Nat.zero_add, Option.some.injEq]
      calc (acc * 10 ^ (natToDigits (n / 10)).length + n / 10) * 10 + n % 10
          = acc * (10 ^ (natToDigits (n / 10)).length * 10) +
              (n / 10 * 10 + n % 10) := by ring
        _ = acc * 10 ^ ((natToDigits (n / 10)).length + 1) + n := by
            rw [← pow_succ]
            congr 1
            omega

theorem renderIntChars_chars (i : Int) :
    ∀ c ∈ renderIntChars i, c.toNat = 45 ∨ (48 ≤ c.toNat ∧ c.toNat ≤ 57) := by
  intro c hc
  rw [renderIntChars] at hc
  split at hc
  · rcases List.mem_cons.1 hc with rfl | h
    · left; rfl
    · right; exact natToDigits_all_digits _ c h
  · right; exact natToDigits_all_digits _ c hc

theorem isGoSpace_toNat {c : Char} (h : isGoSpace c = true) :
    c.toNat = 32 ∨ c.toNat = 9 ∨ c.toNat = 10 ∨ c.toNat = 11 ∨
      c.toNat = 12 ∨ c.toNat = 13 ∨ c.toNat = 133 ∨ c.toNat = 160 := by
  simp only [isGoSpace, Bool.or_eq_true, beq_iff_eq] at h
  rcases h with ((((((rfl | rfl) | rfl) | rfl) | rfl) | rfl) | rfl) | rfl <;> simp

theorem isGoSpace_false_of_render {c : Char}
    (h : c.toNat = 45 ∨ (48 ≤ c.toNat ∧ c.toNat ≤ 57)) :
    isGoSpace c = false := by
  cases hsp : isGoSpace c
  · rfl
  · have := isGoSpace_toNat hsp
    omega

theorem comma_not_mem_render (i : Int) : (',' : Char) ∉ renderIntChars i := by
  intro hc
  have h := renderIntChars_chars i (',' : Char) hc
  have h44 : (',' : Char).toNat = 44 := rfl
  omega

theorem trimLeft_of_not_space (s : List Char)
    (h : ∀ c ∈ s, isGoSpace c = false) : trimLeft s = s := by
  cases s with
  | nil => rfl
  | cons c cs => simp [trimLeft, h c (List.mem_cons_self c cs)]

theorem trimSpace_of_not_space (s : List Char)
    (h : ∀ c ∈ s, isGoSpace c = false) : trimSpace s = s := by
  rw [trimSpace, trimLeft_of_not_space s h,
    trimLeft_of_not_space s.reverse (fun c hc => h c (List.mem_reverse.1 hc)),
    List.reverse_reverse]

theorem trimSpace_render (i : Int) :
    trimSpace (renderIntChars i) = renderIntChars i :=
  trimSpace_of_not_space _
    (fun c hc => isGoSpace_false_of_render (renderIntChars_chars i c hc))

theorem renderIntChars_ne_nil (i : Int) : renderIntChars i ≠ [] := by
  rw [renderIntChars]
  split
  · simp
  · exact natToDigits_ne_nil _

theorem goParseInt64Core_render (i : Int) (h1 : int64Min ≤ i)
    (h2 : i ≤ int64Max) : goParseInt64Core (renderIntChars i) = .ok i := by
  by_cases hneg : i < 0
  · have hD : parseDigitsAux 0 (natToDigits i.natAbs) = some i.natAbs := by
      simpa using parseDigitsAux_natToDigits i.natAbs 0
    have hne := natToDigits_ne_nil i.natAbs
    rw [renderIntChars, if_pos hneg]
    simp only [goParseInt64Core, hD, hne, if_false, if_true]
    have hcond : int64Min ≤ -((i.natAbs : Nat) : Int) ∧
        -((i.natAbs : Nat) : Int) ≤ int64Max := by
      constructor <;> omega
    rw [if_pos hcond]
    congr 1
    omega
  · obtain ⟨c, cs, hcs⟩ : ∃ c cs, natToDigits i.toNat = c :: cs := by
      rcases hn : natToDigits i.toNat with _ | ⟨c, cs⟩
      · exact absurd hn (natToDigits_ne_nil _)
      · exact ⟨c, cs, rfl⟩
    have hdig : 48 ≤ c.toNat ∧ c.toNat ≤ 57 :=
      natToDigits_all_digits _ c (hcs ▸ List.mem_cons_self c cs)
    have hc1 : c ≠ '-' := by
      intro hc
      have h45 : ('-' : Char).toNat = 45 := rfl
      rw [hc] at hdig
      omega
    have hc2 : c ≠ '+' := by
      intro hc
      have h43 : ('+' : Char).toNat = 43 := rfl
      rw [hc] at hdig
      omega
    have hD : parseDigitsAux 0 (c :: cs) = some i.toNat := by
      rw [← hcs]
      simpa using parseDigitsAux_natToDigits i.toNat 0
    rw [renderIntChars, if_neg hneg, hcs]
    simp only [goParseInt64Core, if_neg hc1, if_neg hc2, hD]
    have hcond : int64Min ≤ ((i.toNat : Nat) : Int) ∧
        ((i.toNat : Nat) : Int) ≤ int64Max := by
      constructor <;> omega
    simp only [reduceCtorEq, if_false]
    rw [if_pos hcond]
    congr 1
    omega

theorem goAtoiCore_render (i : Int) (h1 : int64Min ≤ i) (h2 : i ≤ int64Max) :
    goAtoiCore (renderIntChars i) = .ok i := by
  rw [goAtoiCore, goParseInt64Core_render i h1 h2]

theorem splitOnComma_ne_nil (s : List Char) : splitOnComma s ≠ [] := by
  cases s with
  | nil => simp [splitOnComma]
  | cons c cs =>
    rw [splitOnComma]
    rcases h : splitOnComma cs with _ | ⟨t, ts⟩
    · simp
    · by_cases hc : c = ',' <;> simp [hc]

theorem splitOnComma_no_comma (x : List Char) (h : (',' : Char) ∉ x) :
    splitOnComma x = [x] := by
  induction x with
  | nil => rfl
  | cons c cs ih =>
    have hc : c ≠ ',' := fun hh => h (hh ▸ List.mem_cons_self c cs)
    have hcs : (',' : Char) ∉ cs := fun hh => h (List.mem_cons_of_mem c hh)
    simp only [splitOnComma, ih hcs, if_neg hc]

theorem splitOnComma_append_comma (x t : List Char) (h : (',' : Char) ∉ x) :
    splitOnComma (x ++ ',' :: t) = x :: splitOnComma t := by
  induction x with
  | nil =>
    rcases hs : splitOnComma t with _ | ⟨u, us⟩
    · exact absurd hs (splitOnComma_ne_nil t)
    · simp [splitOnComma, hs]
  | cons c cs ih =>
    have hc : c ≠ ',' := fun hh => h (hh ▸ List.mem_cons_self c cs)
    have hcs : (',' : Char) ∉ cs := fun hh => h (List.mem_cons_of_mem c hh)
    simp only [List.cons_append, splitOnComma, List.append_eq, ih hcs,
      if_neg hc]

theorem splitOnComma_joinComma (l : List (List Char)) (hne : l ≠ [])
    (h : ∀ x ∈ l, (',' : Char) ∉ x) : splitOnComma (joinComma l) = l := by
  induction l with
  | nil => exact absurd rfl hne
  | cons x xs ih =>
    cases xs with
    | nil => exact splitOnComma_no_comma x (h x (List.mem_cons_self _ _))
    | cons y ys =>
      have hx := h x (List.mem_cons_self _ _)
      have hrest : ∀ u ∈ y :: ys, (',' : Char) ∉ u :=
        fun u hu => h u (List.mem_cons_of_mem _ hu)
      show splitOnComma (x ++ ',' :: joinComma (y :: ys)) = x :: y :: ys
      rw [splitOnComma_append_comma _ _ hx, ih (by simp) hrest]

theorem parseSliceLoop_render (p : List Char → Except GoErr Int)
    (seq : List Int) (hp : ∀ x ∈ seq, p (renderIntChars x) = .ok x) :
    ∀ i : Nat, parseSliceLoop p i (seq.map renderIntChars) = .ok seq := by
  induction seq with
  | nil => intro i; rfl
  | cons x xs ih =>
    intro i
    have hx := hp x (List.mem_cons_self _ _)
    have hxs : ∀ y ∈ xs, p (renderIntChars y) = .ok y :=
      fun y hy => hp y (List.mem_cons_of_mem _ hy)
    simp only [List.map_cons, parseSliceLoop, trimSpace_render,
      if_neg (renderIntChars_ne_nil x), hx, ih hxs (i + 1)]

/-! ## C8 -/

/-- C8: the claim quantifies over every integer sequence (with no empty
elements and in-range values), which includes the empty sequence.
Counterexample: the comma-join of the empty sequence is the empty string,
yet both parsers map the empty string to `[0]`, not `[]` — `strings.Split`
yields one empty token, which the empty-token rule turns into a single
zero. -/
theorem parse_join_roundtrip_counterexample :
    joinCommaStr (([] : List Int).map renderInt) = "" ∧
    parseIntSlice (joinCommaStr (([] : List Int).map renderInt)) = .ok [0] ∧
    parseInt64Slice (joinCommaStr (([] : List Int).map renderInt)) = .ok [0] ∧
    (Except.ok [0] : Except GoErr (List Int)) ≠ .ok ([] : List Int) := by
  refine ⟨rfl, rfl, rfl, by simp⟩

/-- C8 (amended): for every NON-EMPTY integer sequence whose values fit the
target width, parsing the comma-join of the decimal renderings reconstructs
the sequence exactly, for both `parseIntSlice` and `parseInt64Slice`; the
empty sequence instead parses back as `[0]`. -/
theorem parse_join_roundtrip (seq : List Int) (hne : seq ≠ []) :
    ((∀ x ∈ seq, -(2 ^ 31) ≤ x ∧ x ≤ 2 ^ 31 - 1) →
      parseIntSlice (joinCommaStr (seq.map renderInt)) = .ok seq) ∧
    ((∀ x ∈ seq, int64Min ≤ x ∧ x ≤ int64Max) →
      parseInt64Slice (joinCommaStr (seq.map renderInt)) = .ok seq) := by
  have hpow31 : (2 : Int) ^ 31 = 2147483648 := by norm_num
  have hpow63 : (2 : Int) ^ 63 = 9223372036854775808 := by norm_num
  have hdata : (joinCommaStr (seq.map renderInt)).data =
      joinComma (seq.map renderIntChars) := by
    rw [joinCommaStr, List.map_map]
    rfl
  have hsplit : splitOnComma (joinComma (seq.map renderIntChars)) =
      seq.map renderIntChars :=
    splitOnComma_joinComma _ (by simpa using hne)
      (by intro x hx
          rcases List.mem_map.1 hx with ⟨y, _, rfl⟩
          exact comma_not_mem_render y)
  constructor
  · intro hb
    rw [parseIntSlice, hdata, hsplit]
    refine parseSliceLoop_render _ seq ?_ 0
    intro x hx
    have hbx := hb x hx
    rw [hpow31] at hbx
    refine goAtoiCore_render x ?_ ?_
    · rw [int64Min, hpow63]; omega
    · rw [int64Max, hpow63]; omega
  · intro hb
    rw [parseInt64Slice, hdata, hsplit]
    refine parseSliceLoop_render _ seq ?_ 0
    intro x hx
    exact goParseInt64Core_render x (hb x hx).1 (hb x hx).2

/-- C8 amended-claim witness on the sequence `[1, -22, 3]`. -/
theorem parse_join_roundtrip_witness :
    parseIntSlice (joinCommaStr ([1, -22, 3].map renderInt)) =
      .ok [1, -22, 3] ∧
    parseInt64Slice (joinCommaStr ([1, -22, 3].map renderInt)) =
      .ok [1, -22, 3] := by
  have h := parse_join_roundtrip [1, -22, 3] (by simp)
  exact ⟨h.1 (by decide), h.2 (by decide)⟩
